import Mathlib

/-!
Verification of the relay and session-coordination core of the classroom
management system against its specification.

The reassembler, registry, lock and forwarding handlers are shallow
embeddings of `src/server/index.js`; the coordinator-side placeholder
logic embeds the `udp-frame` listener of `src/src/App.tsx`.  JavaScript
`Map`s are modelled as insertion-ordered association lists, sparse JS
arrays as lists of options, byte buffers as `List Nat`, and the
`socket.io` emissions as explicit lists of `Send` values returned by each
handler.
-/

/-! ## UDP frame reassembler (`udpServer.on("message")`) -/

/-- One parsed UDP datagram: the three big-endian header fields of
`udpServer.on("message")` (`sequence: u32`, `chunkIndex: u16`,
`totalChunks: u16`) followed by the opaque payload `msg.slice(8)`.
Datagrams shorter than the 8-byte header are discarded before this point
and never reach the buffer logic. -/
structure Datagram where
  sequence : Nat
  chunkIndex : Nat
  totalChunks : Nat
  payload : List Nat
deriving DecidableEq, Repr

/-- A completed frame handed to the relay: the concatenated bytes and the
`sequence` field of the emitted `h264-frame` event. -/
structure Emitted where
  data : List Nat
  sequence : Nat
deriving DecidableEq, Repr

/-- The per-source reassembly buffer (`frameBuffers.get(clientKey)`), with
`sequence : Int` because the buffer is created with `sequence: -1` while
the datagram header field is an unsigned 32-bit integer. -/
structure FrameBuffer where
  sequence : Int
  chunks : List (Option (List Nat))
  total : Nat
  received : Nat
deriving DecidableEq, Repr

/-- Reading `buffer.chunks[i]` on a (possibly sparse or short) JS array:
out-of-range and hole slots read as `undefined`, modelled by `none`. -/
def getSlot (l : List (Option (List Nat))) (i : Nat) : Option (List Nat) :=
  l.getD i none

/-- Writing `buffer.chunks[i] = payload` on a JS array: the array is
extended with holes up to index `i` if needed, then slot `i` is set. -/
def setSlot (l : List (Option (List Nat))) (i : Nat) (v : List Nat) :
    List (Option (List Nat)) :=
  (l ++ List.replicate (i + 1 - l.length) none).set i (some v)

/-- Concatenation `Buffer.concat(buffer.chunks)` of the slots in index
order.  At every call site all `buffer.total` slots are filled, so holes
(which would throw in JS) never contribute. -/
def joinSlots (l : List (Option (List Nat))) : List Nat :=
  (l.map (fun o => o.getD [])).flatten

/-- The buffer state written when a new sequence number starts
(`buffer.sequence = sequence; buffer.chunks = new Array(totalChunks);
buffer.total = totalChunks; buffer.received = 0`). -/
def freshBuffer (d : Datagram) : FrameBuffer :=
  { sequence := (d.sequence : Int)
    chunks := List.replicate d.totalChunks none
    total := d.totalChunks
    received := 0 }

/-- The "store chunk" half of the datagram handler: store the payload if
the index is in range and the slot is empty, and when
`buffer.received === buffer.total` emit the concatenated frame and reset
`chunks`/`received` (but not `sequence`/`total`) for reuse. -/
def storeChunk (b : FrameBuffer) (d : Datagram) : FrameBuffer × Option Emitted :=
  if d.chunkIndex < b.total ∧ getSlot b.chunks d.chunkIndex = none then
    if b.received + 1 = b.total then
      ({ b with chunks := [], received := 0 },
        some ⟨joinSlots (setSlot b.chunks d.chunkIndex d.payload), d.sequence⟩)
    else
      ({ b with
          chunks := setSlot b.chunks d.chunkIndex d.payload
          received := b.received + 1 }, none)
  else (b, none)

/-- One step of `udpServer.on("message")` for a fixed source key: if the
datagram's sequence differs from the buffer's, restart the buffer for the
new sequence, then store the chunk. -/
def processDatagram (b : FrameBuffer) (d : Datagram) : FrameBuffer × Option Emitted :=
  storeChunk (if (d.sequence : Int) ≠ b.sequence then freshBuffer d else b) d

/-- The buffer created on first contact from a source
(`{ sequence: -1, chunks: [], total: 0 }`, with `received` starting at 0). -/
def initialBuffer : FrameBuffer :=
  { sequence := -1, chunks := [], total := 0, received := 0 }

/-- Process a list of datagrams from one source in order, collecting the
emitted completed frames. -/
def processAll : FrameBuffer → List Datagram → FrameBuffer × List Emitted
  | b, [] => (b, [])
  | b, d :: rest =>
    let r := processDatagram b d
    let r2 := processAll r.1 rest
    (r2.1, r.2.toList ++ r2.2)

/-- The arrival order of the end-to-end scenario: `sequence=1`,
`totalChunks=3`, chunks 2, 0, 1 with payloads "C", "A", "B". -/
def scenario3 : List Datagram :=
  [⟨1, 2, 3, [67]⟩, ⟨1, 0, 3, [65]⟩, ⟨1, 1, 3, [66]⟩]

/-- The slot array holding payload `ps.getD i []` exactly at the indices
of `done`: the shape of a buffer that has received the chunks in `done`
of an `n`-chunk frame. -/
def slotsOf (n : Nat) (ps : List (List Nat)) (done : Finset Nat) :
    List (Option (List Nat)) :=
  (List.range n).map (fun i => if i ∈ done then some (ps.getD i []) else none)

/-- A partially filled buffer for sequence `s` of an `n`-chunk frame with
payload list `ps`, having received exactly the chunk indices in `done`. -/
def mkBuf (s n : Nat) (ps : List (List Nat)) (done : Finset Nat) : FrameBuffer :=
  { sequence := (s : Int), chunks := slotsOf n ps done, total := n, received := done.card }

/-- The canonical datagram stream for an `n`-chunk frame with sequence `s`
and payloads `ps`, in ascending chunk-index order. -/
def chunkStream (s n : Nat) (ps : List (List Nat)) : List Datagram :=
  (List.range n).map (fun i => ⟨s, i, n, ps.getD i []⟩)

/-! ## Session registry and control-channel handlers (`io.on("connection")`) -/

/-- Value stored in the `admins` map: `admins.set(socket.id, { ip })`. -/
structure AdminData where
  ip : String
deriving DecidableEq, Repr

/-- Value stored in the `clients` map:
`clients.set(socket.id, { ip, name, isLocked })`. -/
structure ClientData where
  ip : String
  name : String
  isLocked : Bool
deriving DecidableEq, Repr

/-- The two registry maps `admins` and `clients`, modelled as
insertion-ordered association lists (JS `Map` iteration order). -/
structure RegState where
  admins : List (String × AdminData)
  clients : List (String × ClientData)
deriving DecidableEq, Repr

/-- `Map.prototype.get`: value of the first (unique) entry with this key. -/
def mapGet {α : Type} : List (String × α) → String → Option α
  | [], _ => none
  | (a, b) :: t, k => if a = k then some b else mapGet t k

/-- `Map.prototype.set`: replace the entry in place if the key exists,
otherwise append a new entry at the end. -/
def mapSet {α : Type} : List (String × α) → String → α → List (String × α)
  | [], k, v => [(k, v)]
  | (a, b) :: t, k, v => if a = k then (k, v) :: t else (a, b) :: mapSet t k v

/-- A message emitted to one connection: `io.to(target).emit(msg)`. -/
inductive OutMsg where
  | clientList (l : List (String × String × String))
  | lock (message : Option String)
  | unlock
  | screenFrameMsg (clientId : String) (data : String)
  | remoteMouseMove (x y : Int)
  | remoteMouseClick (button : String)
  | remoteMouseScroll (dx dy : Int)
  | remoteKeyPress (key code : String) (ctrl alt shift metaK : Bool)
  | requestScreenSize
  | screenSize (clientId : String) (width height : Int)
deriving DecidableEq, Repr

/-- One send performed by a handler: the socket id it is addressed to and
the message. -/
structure Send where
  target : String
  msg : OutMsg
deriving DecidableEq, Repr

/-- `broadcastClientList()`: build the full snapshot
`[{id, ip, name}, ...]` from the `clients` map and send it to every
registered admin.  With zero admins the loop body never runs. -/
def broadcastClientList (st : RegState) : List Send :=
  let clientList := st.clients.map (fun p => (p.1, p.2.ip, p.2.name))
  st.admins.map (fun p => ⟨p.1, OutMsg.clientList clientList⟩)

/-- The default display name `PC-${socket.id.substr(0, 4)}` used by the
JS truthiness fallback `name || ...` (an empty string is falsy). -/
def nameOrDefault (name : Option String) (sockId : String) : String :=
  match name with
  | some n => if n = "" then "PC-" ++ sockId.take 4 else n
  | none => "PC-" ++ sockId.take 4

/-- The `register` handler: an `"admin"` role is put in the `admins` map,
a `"client"` role in the `clients` map (with `isLocked: false`), any
other role is ignored; each successful branch rebroadcasts the client
list. -/
def register (st : RegState) (sockId ip : String) (role : String)
    (name : Option String) : RegState × List Send :=
  if role = "admin" then
    let st1 := { st with admins := mapSet st.admins sockId ⟨ip⟩ }
    (st1, broadcastClientList st1)
  else if role = "client" then
    let st1 := { st with clients :=
      (mapSet st.clients sockId ⟨ip, nameOrDefault name sockId, false⟩) }
    (st1, broadcastClientList st1)
  else (st, [])

/-- The `lock-client` handler: if the target is a registered client, set
its `isLocked` flag and emit one `lock` event to it; otherwise do
nothing. -/
def lockClient (st : RegState) (clientId : String) (message : Option String) :
    RegState × List Send :=
  match mapGet st.clients clientId with
  | some c =>
    ({ st with clients := mapSet st.clients clientId { c with isLocked := true } },
      [⟨clientId, OutMsg.lock message⟩])
  | none => (st, [])

/-- The `unlock-client` handler, symmetric to `lock-client`. -/
def unlockClient (st : RegState) (clientId : String) : RegState × List Send :=
  match mapGet st.clients clientId with
  | some c =>
    ({ st with clients := mapSet st.clients clientId { c with isLocked := false } },
      [⟨clientId, OutMsg.unlock⟩])
  | none => (st, [])

/-- The control-channel events whose handlers are installed uniformly on
every connection (besides `register`/`disconnect` and the WebRTC
signalling events). -/
inductive CtrlEvent where
  | screenFrame (data : String)
  | lockClientEv (clientId : String) (message : Option String)
  | unlockClientEv (clientId : String)
  | lockAll (message : Option String)
  | unlockAll
  | remoteMouseMove (clientId : String) (x y : Int)
  | remoteMouseClick (clientId : String) (button : String)
  | remoteMouseScroll (clientId : String) (dx dy : Int)
  | remoteKeyPress (clientId : String) (key code : String) (ctrl alt shift metaK : Bool)
  | requestScreenSize (clientId : String)
  | screenSizeResponse (width height : Int)
deriving DecidableEq, Repr

/-- Dispatch of the uniformly installed `socket.on(...)` handlers.  Every
connected socket gets every handler: nothing here looks up the sender in
`admins` or `clients`; the sender's id is used only as the `clientId` tag
on forwarded `screen-frame` and `screen-size-response` payloads. -/
def handleCtrl (st : RegState) (senderId : String) (ev : CtrlEvent) :
    RegState × List Send :=
  match ev with
  | .screenFrame data =>
    (st, st.admins.map (fun p => ⟨p.1, OutMsg.screenFrameMsg senderId data⟩))
  | .lockClientEv cid m => lockClient st cid m
  | .unlockClientEv cid => unlockClient st cid
  | .lockAll m =>
    ({ st with clients := st.clients.map (fun p => (p.1, { p.2 with isLocked := true })) },
      st.clients.map (fun p => ⟨p.1, OutMsg.lock m⟩))
  | .unlockAll =>
    ({ st with clients := st.clients.map (fun p => (p.1, { p.2 with isLocked := false })) },
      st.clients.map (fun p => ⟨p.1, OutMsg.unlock⟩))
  | .remoteMouseMove cid x y => (st, [⟨cid, OutMsg.remoteMouseMove x y⟩])
  | .remoteMouseClick cid button => (st, [⟨cid, OutMsg.remoteMouseClick button⟩])
  | .remoteMouseScroll cid dx dy => (st, [⟨cid, OutMsg.remoteMouseScroll dx dy⟩])
  | .remoteKeyPress cid key code ctrl alt shift metaK =>
    (st, [⟨cid, OutMsg.remoteKeyPress key code ctrl alt shift metaK⟩])
  | .requestScreenSize cid => (st, [⟨cid, OutMsg.requestScreenSize⟩])
  | .screenSizeResponse w h =>
    (st, st.admins.map (fun p => ⟨p.1, OutMsg.screenSize senderId w h⟩))

/-- The events whose forwarded payload carries the sender's id as a tag
(`{ clientId: socket.id, ... }`). -/
def usesSenderTag : CtrlEvent → Bool
  | .screenFrame _ => true
  | .screenSizeResponse _ _ => true
  | _ => false

/-! ## Coordinator-side placeholder sessions (`App.tsx`, `udp-frame` listener) -/

/-- One entry of the coordinator's client map (`ClientInfo` in
`App.tsx`). -/
structure ClientInfo where
  id : String
  ip : String
  name : String
  screenData : Option String
  isLocked : Bool
  isSelected : Bool
deriving DecidableEq, Repr

/-- Split a character list at every `'.'` (the semantics of JS
`String.prototype.split('.')`, which yields at least one, possibly
empty, component). -/
def splitDots : List Char → List (List Char)
  | [] => [[]]
  | c :: rest =>
    if c = '.' then [] :: splitDots rest
    else
      match splitDots rest with
      | [] => [[c]]
      | w :: ws => (c :: w) :: ws

/-- `clientIp.split('.').pop()`: the last dot-separated component. -/
def lastOctet (ip : String) : String :=
  String.mk ((splitDots ip.data).getLastD [])

/-- The `udp-frame` listener of the coordinator app: update every entry
whose `ip` matches the frame's source (or is still `"unknown"`) with the
new screen data; if nothing matched and the map is empty, create a
placeholder session `udp-${clientIp}` named `PC-${last octet}` carrying
the frame, so the frame is not dropped; with a non-empty map and no
match, the frame is dropped. -/
def udpFrameUpdate (m : List (String × ClientInfo)) (clientIp dataUrl : String) :
    List (String × ClientInfo) :=
  let found := m.any (fun p => p.2.ip = clientIp || p.2.ip = "unknown")
  let m1 := m.map (fun p =>
    if p.2.ip = clientIp || p.2.ip = "unknown" then
      (p.1, { p.2 with ip := clientIp, screenData := some dataUrl })
    else p)
  if !found && m1.isEmpty then
    m1 ++ [("udp-" ++ clientIp,
      { id := "udp-" ++ clientIp, ip := clientIp,
        name := "PC-" ++ lastOctet clientIp, screenData := some dataUrl,
        isLocked := false, isSelected := false })]
  else m1

/-! ## File Transfer Coordinator (modelled from the spec) -/

/-- Modelled from the spec: per-target transfer status
`status ∈ {pending, in-progress, complete, error}` of §3's
`FileTransferSession`; the repository's relay only forwards the
`file-transfer-*` events and keeps no such session state itself. -/
inductive TStatus where
  | pending
  | inProgress
  | complete
  | errored
deriving DecidableEq, Repr

/-- Modelled from the spec: the `perTargetState` record
`{chunksAcked, status, lastError}` of a transfer target. -/
structure TargetState where
  chunksAcked : List Nat
  status : TStatus
  lastError : Option String
deriving DecidableEq, Repr

/-- Modelled from the spec: a `FileTransferSession` with its target set
and per-target state map (§3, §4.6). -/
structure FileTransferSession where
  transferId : String
  targets : List String
  perTargetState : List (String × TargetState)
deriving DecidableEq, Repr

/-- Update the state of one target, leaving every other entry as is. -/
def setTargetState : List (String × TargetState) → String →
    (TargetState → TargetState) → List (String × TargetState)
  | [], _, _ => []
  | (a, b) :: tl, t, f =>
    if a = t then (a, f b) :: setTargetState tl t f
    else (a, b) :: setTargetState tl t f

/-- Modelled from the spec: `onError(transferId, targetId, reason)`
records the error on that target only. -/
def onTargetError (s : FileTransferSession) (t : String) (reason : String) :
    FileTransferSession :=
  { s with perTargetState :=
      (setTargetState s.perTargetState t
        (fun st => { st with status := .errored, lastError := some reason })) }

/-- Modelled from the spec: `onComplete(transferId, targetId)` marks that
target complete. -/
def onTargetComplete (s : FileTransferSession) (t : String) : FileTransferSession :=
  { s with perTargetState :=
      (setTargetState s.perTargetState t (fun st => { st with status := .complete })) }

/-- A terminal per-target status (`complete` or `error`). -/
def isTerminal : TStatus → Bool
  | .complete => true
  | .errored => true
  | _ => false

/-- Modelled from the spec: the session is finished exactly when every
target has reached a terminal state. -/
def finished (s : FileTransferSession) : Bool :=
  s.targets.all (fun t =>
    match mapGet s.perTargetState t with
    | some st => isTerminal st.status
    | none => false)

/-! ## Helper lemmas -/

theorem getSlot_eq (l : List (Option (List Nat))) (i : Nat) :
    getSlot l i = (l[i]?).getD none := by
  simp [getSlot]

theorem getSlot_nil (i : Nat) : getSlot [] i = none := by
  cases i <;> rfl

theorem getSlot_replicate (n i : Nat) : getSlot (List.replicate n none) i = none := by
  rw [getSlot_eq, List.getElem?_replicate]
  split <;> rfl

theorem getSlot_append_pad (l : List (Option (List Nat))) (k j : Nat) :
    getSlot (l ++ List.replicate k none) j = getSlot l j := by
  rw [getSlot_eq, getSlot_eq]
  rcases Nat.lt_or_ge j l.length with h | h
  · rw [List.getElem?_append_left h]
  · rw [List.getElem?_append_right h, List.getElem?_eq_none h,
      List.getElem?_replicate]
    split <;> rfl

theorem length_setSlot (l : List (Option (List Nat))) (i : Nat) (v : List Nat) :
    (setSlot l i v).length = max l.length (i + 1) := by
  simp [setSlot]
  omega

theorem getSlot_setSlot_self (l : List (Option (List Nat))) (i : Nat) (v : List Nat) :
    getSlot (setSlot l i v) i = some v := by
  unfold setSlot
  have hiL : i < (l ++ List.replicate (i + 1 - l.length) none).length := by
    simp
    omega
  rw [getSlot_eq, List.getElem?_set_self hiL]
  rfl

theorem getSlot_setSlot_ne (l : List (Option (List Nat))) (i j : Nat) (v : List Nat)
    (h : j ≠ i) : getSlot (setSlot l i v) j = getSlot l j := by
  unfold setSlot
  rw [getSlot_eq, List.getElem?_set_ne (Ne.symm h), ← getSlot_eq]
  exact getSlot_append_pad l _ j

theorem mapGet_mapSet_self {α : Type} (m : List (String × α)) (k : String) (v : α) :
    mapGet (mapSet m k v) k = some v := by
  induction m with
  | nil => simp [mapSet, mapGet]
  | cons hd t ih =>
    obtain ⟨a, b⟩ := hd
    by_cases h : a = k
    · simp [mapSet, mapGet, h]
    · simp [mapSet, mapGet, h, ih]

theorem mapSet_mapSet_self {α : Type} (m : List (String × α)) (k : String) (v w : α) :
    mapSet (mapSet m k v) k w = mapSet m k w := by
  induction m with
  | nil => simp [mapSet]
  | cons hd t ih =>
    obtain ⟨a, b⟩ := hd
    by_cases h : a = k
    · simp [mapSet, h]
    · simp [mapSet, h, ih]

theorem mapGet_setTargetState_ne (m : List (String × TargetState)) (t k : String)
    (f : TargetState → TargetState) (h : t ≠ k) :
    mapGet (setTargetState m t f) k = mapGet m k := by
  induction m with
  | nil => rfl
  | cons hd tl ih =>
    obtain ⟨a, b⟩ := hd
    by_cases ha : a = t
    · subst ha
      have hak : a ≠ k := h
      simp [setTargetState, mapGet, hak, ih]
    · have hkt : k ≠ t := fun hh => h hh.symm
      by_cases hk : a = k <;> simp [setTargetState, mapGet, ha, hk, hkt, ih]

theorem mapGet_setTargetState_self (m : List (String × TargetState)) (t : String)
    (st : TargetState) (f : TargetState → TargetState)
    (h : mapGet m t = some st) :
    mapGet (setTargetState m t f) t = some (f st) := by
  induction m with
  | nil => simp [mapGet] at h
  | cons hd tl ih =>
    obtain ⟨a, b⟩ := hd
    by_cases ha : a = t
    · subst ha
      simp [mapGet] at h
      subst h
      simp [setTargetState, mapGet]
    · simp [mapGet, ha] at h
      simp [setTargetState, mapGet, ha, ih h]

/-! ## C6: duplicate suppression -/

/-- C6: delivering a datagram whose `(sequence, chunkIndex)` hits an
already-filled slot of the buffer leaves the buffer unchanged and emits
nothing: `receivedCount` is not double-counted and the stored payload is
not overwritten. -/
theorem duplicate_chunk_noop (b : FrameBuffer) (d : Datagram) (p : List Nat)
    (hseq : (d.sequence : Int) = b.sequence)
    (hfilled : getSlot b.chunks d.chunkIndex = some p) :
    processDatagram b d = (b, none) := by
  unfold processDatagram
  rw [if_neg (by simp [hseq])]
  unfold storeChunk
  rw [if_neg (by simp [hfilled])]

/-- Witness for `duplicate_chunk_noop` at a concrete buffer and datagram. -/
theorem duplicate_chunk_noop_witness :
    processDatagram ⟨5, [some [9], none], 2, 1⟩ ⟨5, 0, 2, [7]⟩
      = (⟨5, [some [9], none], 2, 1⟩, none) :=
  duplicate_chunk_noop ⟨5, [some [9], none], 2, 1⟩ ⟨5, 0, 2, [7]⟩ [9]
    (by decide) (by decide)

theorem joinSlots_eq_filterMap (l : List (Option (List Nat))) :
    joinSlots l = (l.filterMap id).flatten := by
  induction l with
  | nil => rfl
  | cons hd tl ih =>
    cases hd <;> simp [joinSlots, List.filterMap_cons] at ih ⊢ <;> simp [ih]

theorem processAll_cons (b : FrameBuffer) (d : Datagram) (rest : List Datagram) :
    processAll b (d :: rest) =
      ((processAll (processDatagram b d).1 rest).1,
        (processDatagram b d).2.toList ++ (processAll (processDatagram b d).1 rest).2) :=
  rfl

theorem storeChunk_sequence (b : FrameBuffer) (d : Datagram) :
    (storeChunk b d).1.sequence = b.sequence := by
  unfold storeChunk
  split
  · split <;> rfl
  · rfl

theorem storeChunk_total (b : FrameBuffer) (d : Datagram) :
    (storeChunk b d).1.total = b.total := by
  unfold storeChunk
  split
  · split <;> rfl
  · rfl

/-! ## Invariant: every filled slot comes from a processed datagram of the
buffer's current sequence -/

/-- Every filled chunk slot of the buffer holds the payload of some
already-processed datagram whose sequence is the buffer's current one. -/
def SlotInv (pre : List Datagram) (b : FrameBuffer) : Prop :=
  ∀ i p, getSlot b.chunks i = some p →
    ∃ d, d ∈ pre ∧ (d.sequence : Int) = b.sequence ∧ d.payload = p

theorem slotInv_initial : SlotInv [] initialBuffer := by
  intro i p h
  rw [show initialBuffer.chunks = [] from rfl, getSlot_nil] at h
  cases h

theorem choose_parts (R : Datagram → Prop) (l : List (List Nat))
    (h : ∀ p ∈ l, ∃ d, R d ∧ d.payload = p) :
    ∃ parts : List Datagram, (∀ d ∈ parts, R d) ∧ parts.map Datagram.payload = l := by
  induction l with
  | nil => exact ⟨[], by simp, rfl⟩
  | cons hd tl ih =>
    obtain ⟨d, hd1, hd2⟩ := h hd (by simp)
    obtain ⟨parts, hp1, hp2⟩ := ih (fun p hp => h p (by simp [hp]))
    refine ⟨d :: parts, ?_, by simp [hp2, hd2]⟩
    intro x hx
    rcases List.mem_cons.mp hx with rfl | hx2
    · exact hd1
    · exact hp1 x hx2

theorem step_inv (pre : List Datagram) (b : FrameBuffer) (d : Datagram)
    (hinv : SlotInv pre b) :
    SlotInv (d :: pre) (processDatagram b d).1 ∧
    (∀ e, (processDatagram b d).2 = some e →
      (∃ parts : List Datagram,
        (∀ x ∈ parts, x ∈ d :: pre ∧ x.sequence = e.sequence) ∧
        e.data = (parts.map Datagram.payload).flatten)) := by
  have hb1seq : (if (d.sequence : Int) ≠ b.sequence then freshBuffer d else b).sequence
      = (d.sequence : Int) := by
    split
    · rfl
    · rename_i h
      push_neg at h
      exact h.symm
  set b1 := if (d.sequence : Int) ≠ b.sequence then freshBuffer d else b with hb1
  have hinv1 : SlotInv (d :: pre) b1 := by
    rw [hb1]
    split
    · intro i p h
      rw [show (freshBuffer d).chunks = List.replicate d.totalChunks none from rfl,
        getSlot_replicate] at h
      cases h
    · intro i p h
      obtain ⟨x, hx1, hx2, hx3⟩ := hinv i p h
      exact ⟨x, by simp [hx1], hx2, hx3⟩
  have hpd : processDatagram b d = storeChunk b1 d := rfl
  rw [hpd]
  unfold storeChunk
  by_cases hc : d.chunkIndex < b1.total ∧ getSlot b1.chunks d.chunkIndex = none
  · rw [if_pos hc]
    by_cases hfull : b1.received + 1 = b1.total
    · rw [if_pos hfull]
      constructor
      · intro i p h
        rw [getSlot_nil] at h
        cases h
      · intro e he
        simp only [Option.some_inj] at he
        subst he
        rw [joinSlots_eq_filterMap]
        have hslots : ∀ p ∈ (setSlot b1.chunks d.chunkIndex d.payload).filterMap id,
            ∃ x, (x ∈ d :: pre ∧ x.sequence = d.sequence) ∧ x.payload = p := by
          intro p hp
          rw [List.mem_filterMap] at hp
          obtain ⟨o, ho, hop⟩ := hp
          subst hop
          obtain ⟨j, hj⟩ := List.mem_iff_getElem?.mp ho
          have hgj : getSlot (setSlot b1.chunks d.chunkIndex d.payload) j = some p := by
            rw [getSlot_eq, hj]
            rfl
          by_cases hji : j = d.chunkIndex
          · subst hji
            rw [getSlot_setSlot_self] at hgj
            exact ⟨d, ⟨by simp, rfl⟩, (Option.some_inj.mp hgj)⟩
          · rw [getSlot_setSlot_ne _ _ _ _ hji] at hgj
            obtain ⟨x, hx1, hx2, hx3⟩ := hinv1 j p hgj
            refine ⟨x, ⟨hx1, ?_⟩, hx3⟩
            rw [hb1seq] at hx2
            exact_mod_cast hx2
        obtain ⟨parts, hp1, hp2⟩ :=
          choose_parts (fun x => x ∈ d :: pre ∧ x.sequence = d.sequence) _ hslots
        exact ⟨parts, hp1, by rw [hp2]⟩
    · rw [if_neg hfull]
      constructor
      · intro i p h
        simp only at h
        by_cases hji : i = d.chunkIndex
        · subst hji
          rw [getSlot_setSlot_self] at h
          exact ⟨d, by simp, hb1seq.symm ▸ rfl, (Option.some_inj.mp h)⟩
        · rw [getSlot_setSlot_ne _ _ _ _ hji] at h
          obtain ⟨x, hx1, hx2, hx3⟩ := hinv1 i p h
          exact ⟨x, hx1, hx2, hx3⟩
      · intro e he
        cases he
  · rw [if_neg hc]
    exact ⟨hinv1, fun e he => by cases he⟩

theorem processAll_no_mixing (ds : List Datagram) :
    ∀ (pre : List Datagram) (b : FrameBuffer), SlotInv pre b →
      ∀ e ∈ (processAll b ds).2,
        ∃ parts : List Datagram,
          (∀ x ∈ parts, (x ∈ pre ∨ x ∈ ds) ∧ x.sequence = e.sequence) ∧
          e.data = (parts.map Datagram.payload).flatten := by
  induction ds with
  | nil =>
    intro pre b _ e he
    simp [processAll] at he
  | cons d rest ih =>
    intro pre b hinv e he
    rw [processAll_cons] at he
    simp only [List.mem_append] at he
    obtain ⟨hinv1, hemit⟩ := step_inv pre b d hinv
    rcases he with he | he
    · have hsome : (processDatagram b d).2 = some e := by
        cases h : (processDatagram b d).2 with
        | none => rw [h] at he; cases he
        | some e0 =>
          rw [h] at he
          simp at he
          rw [he]
      obtain ⟨parts, hp1, hp2⟩ := hemit e hsome
      refine ⟨parts, fun x hx => ?_, hp2⟩
      obtain ⟨hx1, hx2⟩ := hp1 x hx
      rcases List.mem_cons.mp hx1 with rfl | hx3
      · exact ⟨Or.inr (by simp), hx2⟩
      · exact ⟨Or.inl hx3, hx2⟩
    · obtain ⟨parts, hp1, hp2⟩ := ih (d :: pre) (processDatagram b d).1 hinv1 e he
      refine ⟨parts, fun x hx => ?_, hp2⟩
      obtain ⟨hx1, hx2⟩ := hp1 x hx
      rcases hx1 with hx1 | hx1
      · rcases List.mem_cons.mp hx1 with rfl | hx3
        · exact ⟨Or.inr (by simp), hx2⟩
        · exact ⟨Or.inl hx3, hx2⟩
      · exact ⟨Or.inr (by simp [hx1]), hx2⟩

/-! ## C2: sequence supersession and no mixed frames -/

/-- C2: a datagram whose sequence differs from the buffer's discards
every previously stored chunk (afterwards at most its own chunk slot is
filled) and rebinds the buffer to the new sequence; and over any
datagram stream, every emitted frame is a concatenation of payloads of
processed datagrams that all carry the frame's own sequence — no frame
mixes chunks of two sequences. -/
theorem sequence_supersession_no_mixing :
    (∀ (b : FrameBuffer) (d : Datagram), (d.sequence : Int) ≠ b.sequence →
      (processDatagram b d).1.sequence = (d.sequence : Int) ∧
      ∀ j, j ≠ d.chunkIndex → getSlot (processDatagram b d).1.chunks j = none) ∧
    (∀ (ds : List Datagram) (e : Emitted), e ∈ (processAll initialBuffer ds).2 →
      ∃ parts : List Datagram,
        (∀ x ∈ parts, x ∈ ds ∧ x.sequence = e.sequence) ∧
        e.data = (parts.map Datagram.payload).flatten) := by
  constructor
  · intro b d hne
    have hpd : processDatagram b d = storeChunk (freshBuffer d) d := by
      unfold processDatagram
      rw [if_pos hne]
    rw [hpd]
    refine ⟨by rw [storeChunk_sequence]; rfl, ?_⟩
    intro j hj
    unfold storeChunk
    by_cases hc : d.chunkIndex < (freshBuffer d).total ∧
        getSlot (freshBuffer d).chunks d.chunkIndex = none
    · rw [if_pos hc]
      by_cases hfull : (freshBuffer d).received + 1 = (freshBuffer d).total
      · rw [if_pos hfull]
        exact getSlot_nil j
      · rw [if_neg hfull]
        show getSlot (setSlot (freshBuffer d).chunks d.chunkIndex d.payload) j = none
        rw [getSlot_setSlot_ne _ _ _ _ hj]
        exact getSlot_replicate _ _
    · rw [if_neg hc]
      exact getSlot_replicate _ _
  · intro ds e he
    obtain ⟨parts, hp1, hp2⟩ := processAll_no_mixing ds [] initialBuffer slotInv_initial e he
    refine ⟨parts, fun x hx => ?_, hp2⟩
    obtain ⟨hx1, hx2⟩ := hp1 x hx
    rcases hx1 with hx1 | hx1
    · cases hx1
    · exact ⟨hx1, hx2⟩

/-- Witness for `sequence_supersession_no_mixing`: a buffer with
`sequence = 5` holding 2 of 4 chunks, hit by a `sequence = 6` chunk at
index 1: slots 0, 2 and 3 end up empty and the buffer is bound to 6. -/
theorem sequence_supersession_no_mixing_witness :
    (processDatagram ⟨5, [some [1], none, some [2], none], 4, 2⟩ ⟨6, 1, 4, [9]⟩).1.sequence = 6 ∧
    getSlot (processDatagram ⟨5, [some [1], none, some [2], none], 4, 2⟩ ⟨6, 1, 4, [9]⟩).1.chunks 0 = none ∧
    getSlot (processDatagram ⟨5, [some [1], none, some [2], none], 4, 2⟩ ⟨6, 1, 4, [9]⟩).1.chunks 2 = none := by
  have h := sequence_supersession_no_mixing.1
    ⟨5, [some [1], none, some [2], none], 4, 2⟩ ⟨6, 1, 4, [9]⟩ (by decide)
  exact ⟨h.1, h.2 0 (by decide), h.2 2 (by decide)⟩

/-! ## C3: at-most-once emission per (source, sequence) fails on full
retransmission -/

/-- C3 counterexample: after the 3-datagram scenario completes the frame
for `sequence = 1`, retransmitting all three chunks makes the reassembler
emit the very same `(source, sequence)` frame a second time, because the
completion reset clears `chunks`/`received` but keeps `sequence = 1`, so
the duplicates are treated as a fresh fill cycle. -/
theorem frame_reemitted_on_full_retransmission :
    (processAll initialBuffer (scenario3 ++ scenario3)).2
      = [⟨[65, 66, 67], 1⟩, ⟨[65, 66, 67], 1⟩] := by decide

/-- C3 amended: in the exact scenario — 3 datagrams for
`sequence = 1, totalChunks = 3` arriving as chunk 2, chunk 0, chunk 1
with payloads "C", "A", "B" — the frame "ABC" is emitted exactly once,
and a single retransmitted duplicate chunk after completion does not
cause a second emission (only a full retransmitted set does). -/
theorem scenario_abc_emitted_once :
    (processAll initialBuffer scenario3).2 = [⟨[65, 66, 67], 1⟩] ∧
    (processAll initialBuffer (scenario3 ++ [⟨1, 0, 3, [65]⟩])).2
      = [⟨[65, 66, 67], 1⟩] := by decide

/-! ## C5: role is not immutable — a role change records the connection
under both roles -/

/-- C5 counterexample: a connection that registers as `"admin"` and then
re-registers as `"client"` ends up present in **both** registry maps —
the original role is not kept and the second register is not a no-op,
contradicting the claimed immutability. -/
theorem role_change_dual_registration :
    (mapGet (register (register ⟨[], []⟩ "s1" "10.0.0.9" "admin" none).1
        "s1" "10.0.0.9" "client" none).1.admins "s1").isSome = true ∧
    (mapGet (register (register ⟨[], []⟩ "s1" "10.0.0.9" "admin" none).1
        "s1" "10.0.0.9" "client" none).1.clients "s1").isSome = true := by
  decide

/-- C5 amended: after a first successful register, a second register on
the same connection with a different role is neither rejected nor a
no-op: the connection is added to the new role's map while remaining in
the old one, so it is recorded under both roles. -/
theorem register_role_change_records_both (st : RegState) (sockId ip ip2 : String)
    (name : Option String) :
    mapGet (register (register st sockId ip "admin" none).1
        sockId ip2 "client" name).1.admins sockId = some ⟨ip⟩ ∧
    mapGet (register (register st sockId ip "admin" none).1
        sockId ip2 "client" name).1.clients sockId
      = some ⟨ip2, nameOrDefault name sockId, false⟩ := by
  unfold register
  rw [if_pos rfl, if_neg (by decide), if_pos rfl]
  exact ⟨mapGet_mapSet_self _ _ _, mapGet_mapSet_self _ _ _⟩

/-! ## C7: lock idempotence with one lock event per call -/

/-- C7: for a registered client id, `lock-client` twice with the same
message leaves the registry exactly as one call does (the client's
`isLocked` flag is `true`), while each of the two calls emits exactly
one `lock` event to the target — two emissions in total. -/
theorem lock_idempotence (st : RegState) (id : String) (m : Option String)
    (c : ClientData) (hreg : mapGet st.clients id = some c) :
    (lockClient (lockClient st id m).1 id m).1 = (lockClient st id m).1 ∧
    mapGet (lockClient st id m).1.clients id = some { c with isLocked := true } ∧
    (lockClient st id m).2 = [⟨id, OutMsg.lock m⟩] ∧
    (lockClient (lockClient st id m).1 id m).2 = [⟨id, OutMsg.lock m⟩] := by
  have h1 : lockClient st id m
      = ({ st with clients := mapSet st.clients id { c with isLocked := true } },
          [⟨id, OutMsg.lock m⟩]) := by
    unfold lockClient
    rw [hreg]
  have hg : mapGet (mapSet st.clients id { c with isLocked := true }) id
      = some { c with isLocked := true } := mapGet_mapSet_self _ _ _
  have h2 : lockClient { st with clients := mapSet st.clients id { c with isLocked := true } } id m
      = ({ st with clients :=
            (mapSet (mapSet st.clients id { c with isLocked := true }) id
              { c with isLocked := true }) },
          [⟨id, OutMsg.lock m⟩]) := by
    unfold lockClient
    rw [hg]
  refine ⟨?_, ?_, ?_, ?_⟩
  · rw [h1, h2]
    simp only [mapSet_mapSet_self]
  · rw [h1]
    exact hg
  · rw [h1]
  · rw [h1, h2]

/-- Witness for `lock_idempotence` on a registry with one client. -/
theorem lock_idempotence_witness :
    (lockClient (lockClient ⟨[], [("c1", ⟨"10.0.0.2", "PC-1", false⟩)]⟩ "c1" (some "hi")).1
        "c1" (some "hi")).1
      = (lockClient ⟨[], [("c1", ⟨"10.0.0.2", "PC-1", false⟩)]⟩ "c1" (some "hi")).1 ∧
    (lockClient ⟨[], [("c1", ⟨"10.0.0.2", "PC-1", false⟩)]⟩ "c1" (some "hi")).2
      = [⟨"c1", OutMsg.lock (some "hi")⟩] := by
  have h := lock_idempotence ⟨[], [("c1", ⟨"10.0.0.2", "PC-1", false⟩)]⟩ "c1" (some "hi")
    ⟨"10.0.0.2", "PC-1", false⟩ (by decide)
  exact ⟨h.1, h.2.2.1⟩

/-! ## C9: broadcast with zero coordinators is a no-op -/

/-- C9: with zero registered admins, `broadcastClientList` performs zero
sends; it only reads the registry, so no state changes and no error is
raised. -/
theorem broadcast_no_coordinators (st : RegState) (h : st.admins = []) :
    broadcastClientList st = [] := by
  simp [broadcastClientList, h]

/-- Witness for `broadcast_no_coordinators` with clients present but no
admins. -/
theorem broadcast_no_coordinators_witness :
    broadcastClientList ⟨[], [("c1", ⟨"10.0.0.2", "PC-1", false⟩)]⟩ = [] :=
  broadcast_no_coordinators ⟨[], [("c1", ⟨"10.0.0.2", "PC-1", false⟩)]⟩ rfl

/-! ## C10: handler effects are independent of the sender's role and
registration -/

/-- C10: every uniformly installed control handler acts independently of
the sender's registered role and of whether the sender is registered at
all — for any two sender connections the effect is identical for the
non-tagging events, and for `screen-frame` / `screen-size-response` the
sender enters the result only as the `clientId` tag on the payload
forwarded to every admin (in particular any connection, registered or
not, can issue `lock-all`, and an unregistered sender's `screen-frame`
is still forwarded to all admins). -/
theorem handler_role_independence :
    (∀ (st : RegState) (sid sid' : String) (ev : CtrlEvent),
      usesSenderTag ev = false → handleCtrl st sid ev = handleCtrl st sid' ev) ∧
    (∀ (st : RegState) (sid : String) (data : String),
      handleCtrl st sid (CtrlEvent.screenFrame data)
        = (st, st.admins.map (fun p => ⟨p.1, OutMsg.screenFrameMsg sid data⟩))) ∧
    (∀ (st : RegState) (sid : String) (w h : Int),
      handleCtrl st sid (CtrlEvent.screenSizeResponse w h)
        = (st, st.admins.map (fun p => ⟨p.1, OutMsg.screenSize sid w h⟩))) := by
  refine ⟨?_, fun st sid data => rfl, fun st sid w h => rfl⟩
  intro st sid sid' ev hev
  cases ev <;> first
    | rfl
    | (exfalso; simp [usesSenderTag] at hev)

/-- Witness for `handler_role_independence`: a `lock-all` issued by the
(agent) connection `"c1"` has the same effect as one issued by the
(admin) connection `"a1"`. -/
theorem handler_role_independence_witness :
    handleCtrl ⟨[("a1", ⟨"10.0.0.9"⟩)], [("c1", ⟨"10.0.0.2", "PC-1", false⟩)]⟩
        "c1" (CtrlEvent.lockAll (some "hi"))
      = handleCtrl ⟨[("a1", ⟨"10.0.0.9"⟩)], [("c1", ⟨"10.0.0.2", "PC-1", false⟩)]⟩
        "a1" (CtrlEvent.lockAll (some "hi")) :=
  handler_role_independence.1
    ⟨[("a1", ⟨"10.0.0.9"⟩)], [("c1", ⟨"10.0.0.2", "PC-1", false⟩)]⟩
    "c1" "a1" (CtrlEvent.lockAll (some "hi")) (by decide)

/-! ## C4: placeholder sessions for unmatched UDP sources -/

/-- C4: when a completed frame's source address matches no entry of the
coordinator's client map, then (a) with an empty map the listener creates
a placeholder session — id `udp-` + the address, display name `PC-` +
the address's last octet — carrying the frame instead of dropping it,
and (b) with a non-empty map (in particular several registered agents)
the map is left unchanged: the frame is dropped. -/
theorem placeholder_session (m : List (String × ClientInfo)) (clientIp dataUrl : String)
    (hno : ∀ p ∈ m, p.2.ip ≠ clientIp ∧ p.2.ip ≠ "unknown") :
    (m = [] → udpFrameUpdate m clientIp dataUrl
      = [("udp-" ++ clientIp,
          ⟨"udp-" ++ clientIp, clientIp, "PC-" ++ lastOctet clientIp,
            some dataUrl, false, false⟩)]) ∧
    (m ≠ [] → udpFrameUpdate m clientIp dataUrl = m) := by
  constructor
  · rintro rfl
    rfl
  · intro hm
    have hfound : m.any (fun p => p.2.ip = clientIp || p.2.ip = "unknown") = false := by
      rw [List.any_eq_false]
      intro p hp
      obtain ⟨h1, h2⟩ := hno p hp
      simp [h1, h2]
    have hmap : m.map (fun p =>
        if p.2.ip = clientIp || p.2.ip = "unknown" then
          (p.1, { p.2 with ip := clientIp, screenData := some dataUrl })
        else p) = m := by
      conv_rhs => rw [← List.map_id m]
      apply List.map_congr_left
      intro p hp
      obtain ⟨h1, h2⟩ := hno p hp
      simp [h1, h2]
    unfold udpFrameUpdate
    rw [hfound, hmap]
    simp [hm]

/-- Witness for `placeholder_session`: an empty map and source address
`10.0.0.5` produce the placeholder `udp-10.0.0.5` named `PC-5` holding
the frame. -/
theorem placeholder_session_witness :
    udpFrameUpdate [] "10.0.0.5" "IMG"
      = [("udp-10.0.0.5", ⟨"udp-10.0.0.5", "10.0.0.5", "PC-5", some "IMG", false, false⟩)] := by
  have h := (placeholder_session [] "10.0.0.5" "IMG" (by simp)).1 rfl
  rw [h]
  decide

/-! ## C8: file-transfer per-target isolation (modelled from the spec) -/

/-- C8 (spec-modelled): in a `FileTransferSession` with targets `A ≠ B`,
an error reported by `A` leaves `B`'s per-target state untouched; the
session is not finished after `A`'s error alone while `B` is still
non-terminal; `B` can afterwards still reach `complete`; and `B`'s
completion leaves `A`'s state untouched. -/
theorem file_transfer_target_isolation (s : FileTransferSession) (A B reason : String)
    (stB : TargetState) (hAB : A ≠ B) (hBt : B ∈ s.targets)
    (hB : mapGet s.perTargetState B = some stB)
    (hBnt : isTerminal stB.status = false) :
    mapGet (onTargetError s A reason).perTargetState B = some stB ∧
    finished (onTargetError s A reason) = false ∧
    mapGet (onTargetComplete (onTargetError s A reason) B).perTargetState B
      = some { stB with status := TStatus.complete } ∧
    mapGet (onTargetComplete (onTargetError s A reason) B).perTargetState A
      = mapGet (onTargetError s A reason).perTargetState A := by
  have h1 : mapGet (onTargetError s A reason).perTargetState B = some stB := by
    unfold onTargetError
    rw [mapGet_setTargetState_ne _ _ _ _ hAB]
    exact hB
  refine ⟨h1, ?_, ?_, ?_⟩
  · unfold finished
    rw [List.all_eq_false]
    refine ⟨B, ?_, ?_⟩
    · show B ∈ (onTargetError s A reason).targets
      exact hBt
    · rw [h1]
      simp [hBnt]
  · unfold onTargetComplete
    rw [mapGet_setTargetState_self _ _ _ _ h1]
  · unfold onTargetComplete
    rw [mapGet_setTargetState_ne _ _ _ _ (Ne.symm hAB)]

/-- Witness for `file_transfer_target_isolation` on a two-target
session with both targets pending. -/
theorem file_transfer_target_isolation_witness :
    mapGet (onTargetError
        ⟨"t1", ["A", "B"], [("A", ⟨[], TStatus.pending, none⟩), ("B", ⟨[], TStatus.pending, none⟩)]⟩
        "A" "disk full").perTargetState "B" = some ⟨[], TStatus.pending, none⟩ ∧
    finished (onTargetError
        ⟨"t1", ["A", "B"], [("A", ⟨[], TStatus.pending, none⟩), ("B", ⟨[], TStatus.pending, none⟩)]⟩
        "A" "disk full") = false := by
  have h := file_transfer_target_isolation
    ⟨"t1", ["A", "B"], [("A", ⟨[], TStatus.pending, none⟩), ("B", ⟨[], TStatus.pending, none⟩)]⟩
    "A" "B" "disk full" ⟨[], TStatus.pending, none⟩
    (by decide) (by decide) (by decide) (by decide)
  exact ⟨h.1, h.2.1⟩

/-! ## C1: reassembly is independent of chunk delivery order -/

theorem length_slotsOf (n : Nat) (ps : List (List Nat)) (done : Finset Nat) :
    (slotsOf n ps done).length = n := by
  simp [slotsOf]

theorem slotsOf_empty (n : Nat) (ps : List (List Nat)) :
    slotsOf n ps (∅ : Finset Nat) = List.replicate n none := by
  apply List.ext_getElem
  · simp [slotsOf]
  · intro i h1 h2
    simp [slotsOf]

theorem getSlot_slotsOf (n i : Nat) (ps : List (List Nat)) (done : Finset Nat)
    (h : i < n) :
    getSlot (slotsOf n ps done) i
      = if i ∈ done then some (ps.getD i []) else none := by
  rw [getSlot_eq]
  simp [slotsOf, List.getElem?_map, List.getElem?_range h]

theorem setSlot_eq_set (l : List (Option (List Nat))) (i : Nat) (v : List Nat)
    (h : i < l.length) : setSlot l i v = l.set i (some v) := by
  unfold setSlot
  rw [show i + 1 - l.length = 0 by omega, List.replicate_zero, List.append_nil]

theorem setSlot_slotsOf (n i : Nat) (ps : List (List Nat)) (done : Finset Nat)
    (h : i < n) :
    setSlot (slotsOf n ps done) i (ps.getD i [])
      = slotsOf n ps (insert i done) := by
  rw [setSlot_eq_set _ _ _ (by rw [length_slotsOf]; exact h)]
  apply List.ext_getElem?
  intro j
  by_cases hji : j = i
  · subst hji
    rw [List.getElem?_set_self (by rw [length_slotsOf]; exact h)]
    simp [slotsOf, List.getElem?_map, List.getElem?_range h]
  · rw [List.getElem?_set_ne (Ne.symm hji)]
    rcases Nat.lt_or_ge j n with hj | hj
    · simp only [slotsOf, List.getElem?_map, List.getElem?_range hj, Option.map_some']
      have hiff : j ∈ insert i done ↔ j ∈ done := by
        simp [Finset.mem_insert, hji]
      simp [hiff]
    · have h1 : (slotsOf n ps done)[j]? = none :=
        List.getElem?_eq_none (by rw [length_slotsOf]; exact hj)
      have h2 : (slotsOf n ps (insert i done))[j]? = none :=
        List.getElem?_eq_none (by rw [length_slotsOf]; exact hj)
      rw [h1, h2]

theorem getD_range_map (ps : List (List Nat)) :
    (List.range ps.length).map (fun i => ps.getD i []) = ps := by
  apply List.ext_getElem
  · simp
  · intro i h1 h2
    simp [List.getD_eq_getElem?_getD, List.getElem?_eq_getElem h2]

theorem joinSlots_slotsOf_full (n : Nat) (ps : List (List Nat)) (hps : ps.length = n) :
    joinSlots (slotsOf n ps (Finset.range n)) = ps.flatten := by
  unfold joinSlots slotsOf
  rw [List.map_map]
  have hmap : (List.range n).map ((fun o => Option.getD o []) ∘ fun i =>
      if i ∈ Finset.range n then some (ps.getD i []) else none)
      = (List.range n).map (fun i => ps.getD i []) := by
    apply List.map_congr_left
    intro i hi
    have hmem : i ∈ Finset.range n := Finset.mem_range.mpr (List.mem_range.mp hi)
    simp [Function.comp, hmem]
  rw [hmap, ← hps, getD_range_map]

theorem fillRun (s n : Nat) (ps : List (List Nat)) (hps : ps.length = n) :
    ∀ (rem : List Datagram) (done : Finset Nat),
      done ⊆ Finset.range n → done.card < n →
      (∀ d ∈ rem, d.sequence = s ∧ d.totalChunks = n ∧
        d.payload = ps.getD d.chunkIndex []) →
      (rem.map Datagram.chunkIndex).Nodup →
      (∀ i, i ∈ rem.map Datagram.chunkIndex ↔ (i < n ∧ i ∉ done)) →
      processAll (mkBuf s n ps done) rem
        = (⟨(s : Int), [], n, 0⟩, [⟨ps.flatten, s⟩]) := by
  intro rem
  induction rem with
  | nil =>
    intro done hsub hlt hseq hnd hcov
    exfalso
    have hsub2 : Finset.range n ⊆ done := by
      intro i hi
      by_contra hnot
      have := (hcov i).mpr ⟨Finset.mem_range.mp hi, hnot⟩
      simp at this
    rw [Finset.Subset.antisymm hsub hsub2, Finset.card_range] at hlt
    exact lt_irrefl n hlt
  | cons d rest ih =>
    intro done hsub hlt hseq hnd hcov
    obtain ⟨hds, hdt, hdp⟩ := hseq d (by simp)
    obtain ⟨hin, hnotdone⟩ := (hcov d.chunkIndex).mp (by simp)
    have hnoreset : processDatagram (mkBuf s n ps done) d
        = storeChunk (mkBuf s n ps done) d := by
      unfold processDatagram
      rw [if_neg (by simp [mkBuf, hds])]
    have hcond : d.chunkIndex < (mkBuf s n ps done).total ∧
        getSlot (mkBuf s n ps done).chunks d.chunkIndex = none := by
      constructor
      · exact hin
      · show getSlot (slotsOf n ps done) d.chunkIndex = none
        rw [getSlot_slotsOf _ _ _ _ hin, if_neg hnotdone]
    have hsetchunks : setSlot (mkBuf s n ps done).chunks d.chunkIndex d.payload
        = slotsOf n ps (insert d.chunkIndex done) := by
      show setSlot (slotsOf n ps done) d.chunkIndex d.payload = _
      rw [hdp]
      exact setSlot_slotsOf n d.chunkIndex ps done hin
    have hcard : (insert d.chunkIndex done).card = done.card + 1 :=
      Finset.card_insert_of_not_mem hnotdone
    have hsubins : insert d.chunkIndex done ⊆ Finset.range n :=
      Finset.insert_subset_iff.mpr ⟨Finset.mem_range.mpr hin, hsub⟩
    by_cases hfull : done.card + 1 = n
    · -- the frame completes on this datagram
      have hrange : insert d.chunkIndex done = Finset.range n := by
        apply Finset.eq_of_subset_of_card_le hsubins
        rw [Finset.card_range, hcard, hfull]
      have hstore : storeChunk (mkBuf s n ps done) d
          = (⟨(s : Int), [], n, 0⟩, some ⟨ps.flatten, s⟩) := by
        unfold storeChunk
        rw [if_pos hcond, if_pos (show (mkBuf s n ps done).received + 1
          = (mkBuf s n ps done).total from hfull)]
        rw [hsetchunks, hrange, joinSlots_slotsOf_full n ps hps]
        rw [hds]
        rfl
      have hndc : d.chunkIndex ∉ rest.map Datagram.chunkIndex ∧
          (rest.map Datagram.chunkIndex).Nodup := by
        rw [List.map_cons, List.nodup_cons] at hnd
        exact hnd
      have hrest : rest = [] := by
        by_contra hne
        obtain ⟨d0, hd0⟩ := List.exists_mem_of_ne_nil rest hne
        have hj : d0.chunkIndex ∈ (d :: rest).map Datagram.chunkIndex := by
          rw [List.map_cons]
          exact List.mem_cons_of_mem _ (List.mem_map.mpr ⟨d0, hd0, rfl⟩)
        obtain ⟨hjn, hjd⟩ := (hcov _).mp hj
        have hmem : d0.chunkIndex ∈ insert d.chunkIndex done := by
          rw [hrange]
          exact Finset.mem_range.mpr hjn
        rcases Finset.mem_insert.mp hmem with heq | hmem2
        · exact hndc.1 (heq ▸ List.mem_map.mpr ⟨d0, hd0, rfl⟩)
        · exact hjd hmem2
      subst hrest
      rw [processAll_cons, hnoreset, hstore]
      rfl
    · -- the buffer stays partial: recurse with one more received chunk
      have hfnot : ¬((mkBuf s n ps done).received + 1 = (mkBuf s n ps done).total) := hfull
      have hstore : storeChunk (mkBuf s n ps done) d
          = (mkBuf s n ps (insert d.chunkIndex done), none) := by
        unfold storeChunk
        rw [if_pos hcond, if_neg hfnot, hsetchunks]
        simp [mkBuf, hcard]
      have hltins : (insert d.chunkIndex done).card < n := by
        rw [hcard]
        have : (insert d.chunkIndex done).card ≤ n := by
          have := Finset.card_le_card hsubins
          rwa [Finset.card_range] at this
        omega
      have hndc : d.chunkIndex ∉ rest.map Datagram.chunkIndex ∧
          (rest.map Datagram.chunkIndex).Nodup := by
        rw [List.map_cons, List.nodup_cons] at hnd
        exact hnd
      have hseqr : ∀ x ∈ rest, x.sequence = s ∧ x.totalChunks = n ∧
          x.payload = ps.getD x.chunkIndex [] :=
        fun x hx => hseq x (List.mem_cons_of_mem _ hx)
      have hcovr : ∀ i, i ∈ rest.map Datagram.chunkIndex ↔
          (i < n ∧ i ∉ insert d.chunkIndex done) := by
        intro i
        constructor
        · intro hi
          have hic : i ∈ (d :: rest).map Datagram.chunkIndex := by
            rw [List.map_cons]
            exact List.mem_cons_of_mem _ hi
          obtain ⟨h1, h2⟩ := (hcov i).mp hic
          refine ⟨h1, ?_⟩
          rw [Finset.mem_insert]
          rintro (rfl | hmem)
          · exact hndc.1 hi
          · exact h2 hmem
        · rintro ⟨h1, h2⟩
          rw [Finset.mem_insert] at h2
          push_neg at h2
          have hic : i ∈ (d :: rest).map Datagram.chunkIndex :=
            (hcov i).mpr ⟨h1, h2.2⟩
          rw [List.map_cons] at hic
          rcases List.mem_cons.mp hic with heq | hmem
          · exact absurd heq h2.1
          · exact hmem
      rw [processAll_cons, hnoreset, hstore]
      have := ih (insert d.chunkIndex done) hsubins hltins hseqr hndc.2 hcovr
      rw [show (mkBuf s n ps (insert d.chunkIndex done), (none : Option Emitted)).1
        = mkBuf s n ps (insert d.chunkIndex done) from rfl, this]
      rfl

/-- C1: for a fixed source, sequence `s` and `totalChunks = n > 0`, and
any permutation of the delivery order of the `n` distinct chunks, the
reassembler emits exactly one completed frame, byte-for-byte equal to
the chunks concatenated in ascending `chunkIndex` order. -/
theorem reassembly_order_independence (s n : Nat) (ps : List (List Nat))
    (hn : 0 < n) (hps : ps.length = n) (ds : List Datagram)
    (hperm : ds.Perm (chunkStream s n ps)) :
    (processAll initialBuffer ds).2 = [⟨ps.flatten, s⟩] := by
  have hseq : ∀ d ∈ ds, d.sequence = s ∧ d.totalChunks = n ∧
      d.payload = ps.getD d.chunkIndex [] := by
    intro d hd
    have hmem : d ∈ chunkStream s n ps := hperm.mem_iff.mp hd
    obtain ⟨i, hi, hdi⟩ := List.mem_map.mp hmem
    rw [← hdi]
    exact ⟨rfl, rfl, rfl⟩
  have hmapperm : (ds.map Datagram.chunkIndex).Perm (List.range n) := by
    have h1 := hperm.map Datagram.chunkIndex
    have h2 : (chunkStream s n ps).map Datagram.chunkIndex = List.range n := by
      unfold chunkStream
      rw [List.map_map]
      exact List.map_id _
    rwa [h2] at h1
  have hnd : (ds.map Datagram.chunkIndex).Nodup :=
    hmapperm.nodup_iff.mpr (List.nodup_range n)
  have hcov : ∀ i, i ∈ ds.map Datagram.chunkIndex ↔
      (i < n ∧ i ∉ (∅ : Finset Nat)) := by
    intro i
    rw [hmapperm.mem_iff, List.mem_range]
    simp
  cases ds with
  | nil =>
    exfalso
    have hlen := hperm.length_eq
    simp [chunkStream] at hlen
    omega
  | cons d rest =>
    obtain ⟨hds, hdt, hdp⟩ := hseq d (by simp)
    have hfirst : processDatagram initialBuffer d
        = processDatagram (mkBuf s n ps ∅) d := by
      unfold processDatagram
      rw [if_pos (by
        show (d.sequence : Int) ≠ initialBuffer.sequence
        rw [hds]
        show (s : Int) ≠ -1
        omega)]
      rw [if_neg (by
        show ¬((d.sequence : Int) ≠ (mkBuf s n ps ∅).sequence)
        rw [hds]
        exact not_not_intro rfl)]
      congr 1
      show freshBuffer d = mkBuf s n ps ∅
      unfold freshBuffer mkBuf
      rw [hds, hdt, slotsOf_empty]
      rfl
    have hshift : processAll initialBuffer (d :: rest)
        = processAll (mkBuf s n ps ∅) (d :: rest) := by
      rw [processAll_cons, processAll_cons, hfirst]
    rw [hshift, fillRun s n ps hps (d :: rest) ∅ (by simp)
      (by simpa using hn) hseq hnd hcov]

/-- Witness for `reassembly_order_independence`: two chunks delivered in
reversed order still produce the in-order frame. -/
theorem reassembly_order_independence_witness :
    (processAll initialBuffer [⟨7, 1, 2, [66]⟩, ⟨7, 0, 2, [65]⟩]).2
      = [⟨[65, 66], 7⟩] := by
  have h := reassembly_order_independence 7 2 [[65], [66]] (by decide) (by decide)
    [⟨7, 1, 2, [66]⟩, ⟨7, 0, 2, [65]⟩] (by decide)
  simpa using h
